import Mathlib

/-!
Shallow embedding of the DOSBox IPX relay server (package `server`,
file `server.go` of the ipxbox repository) together with the claims
about it that this development settles.

Modelling conventions:
* A 6-byte IPX address is a structure of six `Nat` fields.
* Transport endpoints (`*net.UDPAddr`) are identified by their string form
  (`addr.String()`), which is exactly the key the Go code uses for the
  endpoint map; the endpoint is stored as a `String`.
* `time.Time` values are `Nat` (an abstract monotone clock); `time.Now()` is
  passed in explicitly as the parameter `now`.  `t1.After t2` is `t2 < t1`
  and `t.Add d` is `t + d`, exactly mirroring the Go comparisons.
* The UDP socket is modelled by a log `sent` of datagrams handed to
  `WriteToUDP`, plus a send oracle `oracle : String → Option Nat` giving the
  error result (`none` = success) of a send to a given endpoint.
* The two registry maps `clients` (endpoint-keyed) and `clientsByIPX`
  (address-keyed) are association lists, kept as two separate components just
  as in the Go struct.  In Go both maps hold a pointer to one shared `client`
  record whose mutable fields are the two timestamps; since the endpoint
  field of a record is immutable, a timestamp write through the shared
  pointer is modelled by updating, in both lists, every entry whose record
  carries that endpoint.
* The external `ipx` codec package is not part of this repository's sources;
  per the specification it is a black box.  Header classification and the
  decode step are therefore modelled from the spec (see the doc comments on
  `Header.IsRegistrationPacket`, `Header.IsBroadcast` and the `decode`
  parameters), and marshalling of the fixed reply/ping headers is taken to
  succeed, with the structured header itself logged.
-/

namespace IpxSrv

/-- A 6-byte IPX node address (`ipx.Addr`). -/
structure Addr where
  b0 : Nat
  b1 : Nat
  b2 : Nat
  b3 : Nat
  b4 : Nat
  b5 : Nat
deriving DecidableEq, Repr

/-- The all-zeroes null address (`ipx.AddrNull`). -/
def AddrNull : Addr := ⟨0, 0, 0, 0, 0, 0⟩

/-- The all-0xff broadcast address (`ipx.AddrBroadcast`). -/
def AddrBroadcast : Addr := ⟨0xff, 0xff, 0xff, 0xff, 0xff, 0xff⟩

/-- Source address of server-initiated pings (`addrPingReply`). -/
def addrPingReply : Addr := ⟨0x02, 0xff, 0xff, 0xff, 0x00, 0x00⟩

/-- One network/node/socket triple of an IPX header (`ipx.HeaderAddr`). -/
structure HeaderAddr where
  network : Nat × Nat × Nat × Nat
  addr : Addr
  socket : Nat
deriving DecidableEq, Repr

/-- Decoded IPX header (`ipx.Header`). -/
structure Header where
  checksum : Nat
  length : Nat
  transControl : Nat
  dest : HeaderAddr
  src : HeaderAddr
deriving DecidableEq, Repr

/-- Modelled from the spec: classification is owned by the external codec;
a header is a registration packet when its destination protocol address
equals the null sentinel. -/
def Header.IsRegistrationPacket (h : Header) : Bool :=
  h.dest.addr = AddrNull

/-- Modelled from the spec: a header is a broadcast packet when its
destination protocol address equals the broadcast sentinel. -/
def Header.IsBroadcast (h : Header) : Bool :=
  h.dest.addr = AddrBroadcast

/-- A connected client record (`client`).  `addr` is the transport endpoint
in its string form. -/
structure Client where
  addr : String
  ipxAddr : Addr
  lastReceiveTime : Nat
  lastSendTime : Nat
deriving DecidableEq, Repr

/-- Server configuration (`Config`). -/
structure Config where
  clientTimeout : Nat
  keepaliveTime : Nat
deriving DecidableEq, Repr

/-- One datagram handed to `socket.WriteToUDP`: either the encoding of a
structured header (registration reply, ping) or raw forwarded bytes. -/
inductive Datagram where
  | hdr (h : Header) (ep : String)
  | raw (b : List Nat) (ep : String)
deriving DecidableEq, Repr

/-- Errors surfaced by the forwarding path: the distinguished
`UnknownClientError`, a transport send error (opaque code), or a failure of
`UnmarshalBinary` in `Write`. -/
inductive SrvError where
  | unknownClient
  | sendErr (code : Nat)
  | decodeErr
deriving DecidableEq, Repr

/-- The server state (`Server`): configuration, the two registry maps, the
attached tap (`some` = attached, holding the published packets), and the log
of datagrams sent on the socket. -/
structure Server where
  config : Config
  clients : List (String × Client)
  clientsByIPX : List (Addr × Client)
  tap : Option (List (List Nat))
  sent : List Datagram
deriving DecidableEq, Repr

/-- A freshly constructed server (`New`): both maps empty, no tap. -/
def Server.new (cfg : Config) : Server :=
  { config := cfg, clients := [], clientsByIPX := [], tap := none, sent := [] }

/-- Lookup in an association list, mirroring a Go map read. -/
def lookupKey {κ β : Type} [DecidableEq κ] (k : κ) : List (κ × β) → Option β
  | [] => none
  | p :: rest => if p.1 = k then some p.2 else lookupKey k rest

/-- Deletion from an association list, mirroring Go `delete`. -/
def eraseKey {κ β : Type} [DecidableEq κ] (k : κ) (l : List (κ × β)) :
    List (κ × β) :=
  l.filter (fun p => decide (p.1 ≠ k))

/-- Apply `upd` to every client record satisfying `cond`, in both registry
maps.  This models a field write through the shared `*client` pointer: the
Go code mutates one record that both maps reference, and a record is
identified across the two maps by its immutable endpoint field. -/
def updClient (cond : Client → Bool) (upd : Client → Client) (s : Server) :
    Server :=
  { s with
    clients := s.clients.map
      (fun p => if cond p.2 then (p.1, upd p.2) else p),
    clientsByIPX := s.clientsByIPX.map
      (fun p => if cond p.2 then (p.1, upd p.2) else p) }

/-- The write `c.lastSendTime = time.Now()` on the record with endpoint
`ep`. -/
def touchSendTime (ep : String) (t : Nat) (s : Server) : Server :=
  updClient (fun c => c.addr = ep) (fun c => { c with lastSendTime := t }) s

/-- The write `srcClient.lastReceiveTime = time.Now()` on the record with
endpoint `ep`. -/
def touchReceiveTime (ep : String) (t : Nat) (s : Server) : Server :=
  updClient (fun c => c.addr = ep)
    (fun c => { c with lastReceiveTime := t }) s

/-- Candidate produced by one iteration of the `newAddress` loop body:
first byte forced to `0x02`, the remaining five bytes drawn from the random
source. -/
def candidateAddr (rnd : Nat → Nat × Nat × Nat × Nat × Nat) (i : Nat) :
    Addr :=
  ⟨0x02, (rnd i).1, (rnd i).2.1, (rnd i).2.2.1, (rnd i).2.2.2.1,
    (rnd i).2.2.2.2⟩

/-- The acceptance test of the `newAddress` loop: not one of the special
addresses, and not already present in the address-keyed map. -/
def addrAvailable (s : Server) (a : Addr) : Bool :=
  decide (a ≠ AddrNull) && decide (a ≠ AddrBroadcast) &&
  decide (a ≠ addrPingReply) && (lookupKey a s.clientsByIPX).isNone

/-- The `newAddress` retry loop starting at draw index `i`, with explicit
fuel standing in for the unbounded Go loop (`none` = fuel exhausted, which
the Go code would spend more time in the loop to avoid). -/
def newAddressFrom (s : Server) (rnd : Nat → Nat × Nat × Nat × Nat × Nat) :
    Nat → Nat → Option Addr
  | _, 0 => none
  | i, fuel + 1 =>
    let a := candidateAddr rnd i
    if addrAvailable s a then some a else newAddressFrom s rnd (i + 1) fuel

/-- `newAddress`: allocate a random address not shared with an existing
client and not equal to any special address. -/
def newAddress (s : Server) (rnd : Nat → Nat × Nat × Nat × Nat × Nat)
    (fuel : Nat) : Option Addr :=
  newAddressFrom s rnd 0 fuel

/-- The registration reply built by `newClient`: destination is the client's
address, source is the broadcast sentinel, fixed checksum/length/socket
fields. -/
def replyHeader (c : Client) : Header :=
  { checksum := 0xffff
    length := 30
    transControl := 0
    dest := { network := (0, 0, 0, 0), addr := c.ipxAddr, socket := 2 }
    src := { network := (0, 0, 0, 1), addr := AddrBroadcast, socket := 2 } }

/-- Tail of `newClient`: set the client's last-send time to now, marshal the
reply (the codec marshal of this fixed well-formed header succeeds) and send
it to the client's endpoint. -/
def sendReply (now : Nat) (c : Client) (s : Server) : Server :=
  let s1 := touchSendTime c.addr now s
  { s1 with sent := s1.sent ++ [Datagram.hdr (replyHeader c) c.addr] }

/-- `newClient`: process a registration packet from endpoint `addr`, adding
a new client if necessary, and send the reply.  Returns `none` only when the
allocator fuel is exhausted. -/
def newClient (rnd : Nat → Nat × Nat × Nat × Nat × Nat) (fuel : Nat)
    (now : Nat) (addr : String) (s : Server) : Option Server :=
  match lookupKey addr s.clients with
  | some c => some (sendReply now c s)
  | none =>
    match newAddress s rnd fuel with
    | none => none
    | some a =>
      let c : Client :=
        { addr := addr, ipxAddr := a, lastReceiveTime := now,
          lastSendTime := 0 }
      let s1 := { s with
        clients := (addr, c) :: s.clients,
        clientsByIPX := (a, c) :: s.clientsByIPX }
      some (sendReply now c s1)

/-- One delivery attempt of the broadcast loop body: update the destination
client's last-send time, hand the raw packet to the socket, and overwrite
the running error variable with this attempt's result (also when that result
is success, exactly as the Go assignment `_, err = ...` does). -/
def broadcastStep (oracle : String → Option Nat) (now : Nat)
    (header : Header) (packet : List Nat) (acc : Server × Option SrvError)
    (p : String × Client) : Server × Option SrvError :=
  if p.2.ipxAddr = header.src.addr then acc
  else
    let s1 := touchSendTime p.2.addr now acc.1
    let s2 := { s1 with sent := s1.sent ++ [Datagram.raw packet p.2.addr] }
    (s2, (oracle p.2.addr).map SrvError.sendErr)

/-- `forwardBroadcastPacket`: forward a broadcast packet to all clients other
than the one holding the header's source address, returning the error
variable as left by the loop. -/
def forwardBroadcastPacket (oracle : String → Option Nat) (now : Nat)
    (header : Header) (packet : List Nat) (s : Server) :
    Server × Option SrvError :=
  s.clients.foldl (broadcastStep oracle now header packet) (s, none)

/-- `forwardPacket`: broadcast packets fan out; unicast packets go to the
client registered under the destination address, or fail with
`UnknownClientError`. -/
def forwardPacket (oracle : String → Option Nat) (now : Nat)
    (header : Header) (packet : List Nat) (s : Server) :
    Server × Option SrvError :=
  if header.IsBroadcast then forwardBroadcastPacket oracle now header packet s
  else
    match lookupKey header.dest.addr s.clientsByIPX with
    | none => (s, some SrvError.unknownClient)
    | some c =>
      let s1 := touchSendTime c.addr now s
      let s2 := { s1 with sent := s1.sent ++ [Datagram.raw packet c.addr] }
      (s2, (oracle c.addr).map SrvError.sendErr)

/-- The tap publication `s.tap.packets <- packet` guarded by
`if s.tap != nil`. -/
def tapPublish (packet : List Nat) (s : Server) : Server :=
  match s.tap with
  | none => s
  | some ps => { s with tap := some (ps ++ [packet]) }

/-- `processPacket`: decode, register or validate the sender, forward, and
publish to the tap.  The decode step of the external codec is passed in as
`decode`.  Returns `none` only when registration exhausts allocator fuel. -/
def processPacket (decode : List Nat → Option Header)
    (rnd : Nat → Nat × Nat × Nat × Nat × Nat) (fuel : Nat)
    (oracle : String → Option Nat) (now : Nat)
    (packet : List Nat) (addr : String) (s : Server) : Option Server :=
  match decode packet with
  | none => some s
  | some header =>
    if header.IsRegistrationPacket then newClient rnd fuel now addr s
    else
      match lookupKey addr s.clients with
      | none => some s
      | some srcClient =>
        if header.src.addr ≠ srcClient.ipxAddr then some s
        else
          let s1 := touchReceiveTime addr now s
          let s2 := (forwardPacket oracle now header packet s1).1
          some (tapPublish packet s2)

/-- `Write`: decode the packet and forward it, returning the byte count on
success, the forwarding error otherwise. -/
def Write (decode : List Nat → Option Header)
    (oracle : String → Option Nat) (now : Nat)
    (packet : List Nat) (s : Server) : Server × Except SrvError Nat :=
  match decode packet with
  | none => (s, Except.error SrvError.decodeErr)
  | some header =>
    match forwardPacket oracle now header packet s with
    | (s1, some e) => (s1, Except.error e)
    | (s1, none) => (s1, Except.ok packet.length)

/-- The ping packet built by `sendPing`: destination broadcast on socket 2,
source the ping-reply address on socket 0, all other fields zero. -/
def pingHeader : Header :=
  { checksum := 0
    length := 0
    transControl := 0
    dest := { network := (0, 0, 0, 0), addr := AddrBroadcast, socket := 2 }
    src := { network := (0, 0, 0, 0), addr := addrPingReply, socket := 0 } }

/-- `sendPing`: set the client's last-send time to now, marshal the ping
header (the codec marshal of this fixed header succeeds) and send it. -/
def sendPing (now : Nat) (c : Client) (s : Server) : Server :=
  let s1 := touchSendTime c.addr now s
  { s1 with sent := s1.sent ++ [Datagram.hdr pingHeader c.addr] }

/-- One iteration of the `checkClientTimeouts` loop for the snapshot record
`p`: send a keepalive ping if the keepalive deadline has passed (after which
the record's last-send time is `now`, so the deadline becomes
`now + keepalive`), evict the client from both maps if the idle deadline has
passed, and fold both deadlines into the next-check time. -/
def checkClientStep (now : Nat) (acc : Server × Nat) (p : String × Client) :
    Server × Nat :=
  let s := acc.1
  let c := p.2
  let keepaliveTime := c.lastSendTime + s.config.keepaliveTime
  let sk : Server × Nat :=
    if keepaliveTime < now then
      (sendPing now c s, now + s.config.keepaliveTime)
    else (s, keepaliveTime)
  let s1 := sk.1
  let keepaliveTime1 := sk.2
  let timeoutTime := c.lastReceiveTime + s1.config.clientTimeout
  let s2 :=
    if timeoutTime < now then
      { s1 with
        clients := eraseKey c.addr s1.clients,
        clientsByIPX := eraseKey c.ipxAddr s1.clientsByIPX }
    else s1
  let next0 := acc.2
  let next1 := if keepaliveTime1 < next0 then keepaliveTime1 else next0
  let next2 := if timeoutTime < next1 then timeoutTime else next1
  (s2, next2)

/-- `checkClientTimeouts`: walk every client once (over the snapshot of the
map at entry, as Go's `range` does — only the walked client's own entries
are ever mutated or deleted by an iteration), performing due keepalives and
evictions; returns the new state and the next check time, at most 10 seconds
in the future. -/
def checkClientTimeouts (now : Nat) (s : Server) : Server × Nat :=
  s.clients.foldl (checkClientStep now) (s, now + 10)

/-- `Tap()`: create the tap if absent, otherwise return the existing one;
either way the server ends up with a tap attached. -/
def attachTap (s : Server) : Server :=
  match s.tap with
  | none => { s with tap := some [] }
  | some _ => s

/-- `Tap.Close()`: detach the tap from the server. -/
def closeTap (s : Server) : Server :=
  { s with tap := none }

/-!  The registry invariant and the reachable states. -/

/-- Consistency of the client registry as a pair of maps: keys are
duplicate-free in both maps, every record is stored under its own endpoint
in the endpoint map and under its own address in the address map, and each
entry of either map has its exact counterpart (the same record) in the
other. -/
def Inv (s : Server) : Prop :=
  (s.clients.map Prod.fst).Nodup ∧
  (s.clientsByIPX.map Prod.fst).Nodup ∧
  (∀ p ∈ s.clients, p.2.addr = p.1) ∧
  (∀ q ∈ s.clientsByIPX, q.2.ipxAddr = q.1) ∧
  (∀ p ∈ s.clients, (p.2.ipxAddr, p.2) ∈ s.clientsByIPX) ∧
  (∀ q ∈ s.clientsByIPX, (q.2.addr, q.2) ∈ s.clients)

/-- No two distinct registered endpoints hold the same allocated protocol
address. -/
def AddrUnique (s : Server) : Prop :=
  ∀ p ∈ s.clients, ∀ q ∈ s.clients,
    p.2.ipxAddr = q.2.ipxAddr → p.1 = q.1

/-- The server states reachable from construction through the operations
that touch the registry: inbound packet dispatch (registration and
forwarding), external packet injection, the timeout/keepalive scheduler
pass, and tap attach/detach. -/
inductive Reachable : Server → Prop where
  | init (cfg : Config) : Reachable (Server.new cfg)
  | packet (s s' : Server) (decode : List Nat → Option Header)
      (rnd : Nat → Nat × Nat × Nat × Nat × Nat) (fuel : Nat)
      (oracle : String → Option Nat) (now : Nat)
      (packet : List Nat) (addr : String) :
      Reachable s →
      processPacket decode rnd fuel oracle now packet addr s = some s' →
      Reachable s'
  | write (s : Server) (decode : List Nat → Option Header)
      (oracle : String → Option Nat) (now : Nat) (packet : List Nat) :
      Reachable s → Reachable (Write decode oracle now packet s).1
  | check (s : Server) (now : Nat) :
      Reachable s → Reachable (checkClientTimeouts now s).1
  | tapAttach (s : Server) : Reachable s → Reachable (attachTap s)
  | tapClose (s : Server) : Reachable s → Reachable (closeTap s)

/-!  Definitions following the claim's words, for comparison with the code
(refinement-style statements). -/

/-- The per-destination send results of a broadcast fan-out, in iteration
order: one entry per client other than the one holding the source
address. -/
def attemptResults (oracle : String → Option Nat) (header : Header)
    (s : Server) : List (Option SrvError) :=
  (s.clients.filter (fun p => decide (p.2.ipxAddr ≠ header.src.addr))).map
    (fun p => (oracle p.2.addr).map SrvError.sendErr)

/-- Following the claim's words: the last error encountered among a list of
per-destination send results (`none` entries are successes, not errors). -/
def lastErrorEncountered (l : List (Option SrvError)) : Option SrvError :=
  (l.filterMap id).getLast?

/-!  Concrete sample data used by witnesses and counterexamples. -/

/-- Sample configuration: 10-unit client timeout, 3-unit keepalive. -/
def cfg0 : Config := { clientTimeout := 10, keepaliveTime := 3 }

/-- Sample allocated address for client A. -/
def addrA : Addr := ⟨2, 1, 0, 0, 0, 0⟩

/-- Sample allocated address for client B. -/
def addrB : Addr := ⟨2, 2, 0, 0, 0, 0⟩

/-- Sample allocated address for client C. -/
def addrC : Addr := ⟨2, 3, 0, 0, 0, 0⟩

/-- Sample client A. -/
def clientA : Client :=
  { addr := "A", ipxAddr := addrA, lastReceiveTime := 0, lastSendTime := 0 }

/-- Sample client B. -/
def clientB : Client :=
  { addr := "B", ipxAddr := addrB, lastReceiveTime := 0, lastSendTime := 0 }

/-- Sample client C. -/
def clientC : Client :=
  { addr := "C", ipxAddr := addrC, lastReceiveTime := 0, lastSendTime := 0 }

/-- Sample server with clients A, B, C registered and a tap attached. -/
def sampleServer : Server :=
  { config := cfg0
    clients := [("A", clientA), ("B", clientB), ("C", clientC)]
    clientsByIPX := [(addrA, clientA), (addrB, clientB), (addrC, clientC)]
    tap := some []
    sent := [] }

/-- A broadcast header with source address `addrA`. -/
def bcastHeaderA : Header :=
  { checksum := 0
    length := 30
    transControl := 0
    dest := { network := (0, 0, 0, 0), addr := AddrBroadcast, socket := 2 }
    src := { network := (0, 0, 0, 0), addr := addrA, socket := 2 } }

/-- Send oracle for the broadcast counterexample: the send to endpoint B
fails with code 7, all other sends succeed. -/
def oracleBC : String → Option Nat :=
  fun ep => if ep = "B" then some 7 else none

/-- The clients a broadcast fan-out attempts to deliver to, in iteration
order: every registered client except those holding the header's source
address. -/
def broadcastTargets (header : Header) (s : Server) :
    List (String × Client) :=
  s.clients.filter (fun p => decide (p.2.ipxAddr ≠ header.src.addr))

/-- Two registry entries describe different client records: their endpoints
differ and their allocated addresses differ. -/
def distinctRec (p q : String × Client) : Prop :=
  p.2.addr ≠ q.2.addr ∧ p.2.ipxAddr ≠ q.2.ipxAddr

/-- The keepalive half of one `checkClientTimeouts` iteration: ping the
client when its keepalive deadline has passed. -/
def pingPhase (now : Nat) (st : Server) (p : String × Client) : Server :=
  if p.2.lastSendTime + st.config.keepaliveTime < now then
    sendPing now p.2 st
  else st

/-- The eviction half of one `checkClientTimeouts` iteration: remove the
client from both maps when its idle deadline has passed. -/
def evictPhase (now : Nat) (p : String × Client) (st : Server) : Server :=
  if p.2.lastReceiveTime + st.config.clientTimeout < now then
    { st with clients := eraseKey p.2.addr st.clients,
              clientsByIPX := eraseKey p.2.ipxAddr st.clientsByIPX }
  else st

/-- Induction motive for the `checkClientTimeouts` walk: the invariant holds
for the current state, the yet-unprocessed snapshot entries are pairwise
distinct, and each of them is still stored untouched under both of its
keys. -/
def CheckMotive (rest : List (String × Client)) (st : Server) : Prop :=
  Inv st ∧ rest.Pairwise distinctRec ∧
  ∀ q ∈ rest, q.2.addr = q.1 ∧
    lookupKey q.1 st.clients = some q.2 ∧
    lookupKey q.2.ipxAddr st.clientsByIPX = some q.2

/-- A registration header (destination = null sentinel). -/
def regHeader : Header :=
  { checksum := 0
    length := 30
    transControl := 0
    dest := { network := (0, 0, 0, 0), addr := AddrNull, socket := 2 }
    src := { network := (0, 0, 0, 0), addr := AddrNull, socket := 2 } }

/-- A unicast data header from client B to client A. -/
def dataHeaderBtoA : Header :=
  { checksum := 0
    length := 30
    transControl := 0
    dest := { network := (0, 0, 0, 0), addr := addrA, socket := 2 }
    src := { network := (0, 0, 0, 0), addr := addrB, socket := 2 } }

/-- A unicast data header addressed to an address nobody holds. -/
def dataHeaderToD : Header :=
  { checksum := 0
    length := 30
    transControl := 0
    dest := { network := (0, 0, 0, 0), addr := ⟨2, 4, 0, 0, 0, 0⟩,
              socket := 2 }
    src := { network := (0, 0, 0, 0), addr := addrB, socket := 2 } }

/-- A concrete codec decode map used by the witnesses. -/
def decodeW : List Nat → Option Header := fun b =>
  if b = [1] then some regHeader
  else if b = [2] then some dataHeaderBtoA
  else if b = [3] then some dataHeaderToD
  else none

/-- A send oracle on which every send succeeds. -/
def oracleOk : String → Option Nat := fun _ => none

/-- A constant random source for the allocator witnesses. -/
def rndW : Nat → Nat × Nat × Nat × Nat × Nat := fun _ => (9, 9, 9, 9, 9)

/-!  Lemmas about the association-list primitives. -/

instance decidableInv (s : Server) : Decidable (Inv s) := by
  unfold Inv
  infer_instance

theorem lookupKey_eq_none {κ β : Type} [DecidableEq κ] (k : κ)
    (l : List (κ × β)) : lookupKey k l = none ↔ k ∉ l.map Prod.fst := by
  induction l with
  | nil => simp [lookupKey]
  | cons p rest ih =>
    by_cases h : p.1 = k
    · simp only [lookupKey, if_pos h]
      simp [h]
    · simp only [lookupKey, if_neg h, List.map_cons, List.mem_cons, ih]
      have hk : ¬ k = p.1 := fun hc => h hc.symm
      simp [hk]

theorem lookupKey_mem {κ β : Type} [DecidableEq κ] {k : κ} {v : β}
    {l : List (κ × β)} (h : lookupKey k l = some v) : (k, v) ∈ l := by
  induction l with
  | nil => simp [lookupKey] at h
  | cons p rest ih =>
    by_cases hk : p.1 = k
    · simp only [lookupKey, if_pos hk, Option.some_inj] at h
      have : (k, v) = p := by
        rw [← hk, ← h]
      rw [this]
      exact List.mem_cons_self p rest
    · simp only [lookupKey, if_neg hk] at h
      exact List.mem_cons_of_mem _ (ih h)

theorem nodupKeys_inj {κ β : Type} {k : κ} {v w : β} {l : List (κ × β)}
    (hnd : (l.map Prod.fst).Nodup) (hv : (k, v) ∈ l) (hw : (k, w) ∈ l) :
    v = w := by
  induction l with
  | nil => simp at hv
  | cons p rest ih =>
    simp only [List.map_cons, List.nodup_cons] at hnd
    rcases List.mem_cons.mp hv with hv1 | hv1 <;>
      rcases List.mem_cons.mp hw with hw1 | hw1
    · exact congrArg Prod.snd (hv1.trans hw1.symm)
    · exfalso
      have hk : k = p.1 := congrArg Prod.fst hv1
      refine hnd.1 ?_
      rw [← hk]
      exact (show k ∈ List.map Prod.fst rest from
        List.mem_map_of_mem Prod.fst hw1)
    · exfalso
      have hk : k = p.1 := congrArg Prod.fst hw1
      refine hnd.1 ?_
      rw [← hk]
      exact (show k ∈ List.map Prod.fst rest from
        List.mem_map_of_mem Prod.fst hv1)
    · exact ih hnd.2 hv1 hw1

theorem mem_lookupKey {κ β : Type} [DecidableEq κ] {k : κ} {v : β}
    {l : List (κ × β)} (hnd : (l.map Prod.fst).Nodup) (h : (k, v) ∈ l) :
    lookupKey k l = some v := by
  induction l with
  | nil => simp at h
  | cons p rest ih =>
    simp only [List.map_cons, List.nodup_cons] at hnd
    rcases List.mem_cons.mp h with h1 | h1
    · rw [← h1]
      simp [lookupKey]
    · by_cases hk : p.1 = k
      · exfalso
        refine hnd.1 ?_
        rw [hk]
        exact (show k ∈ List.map Prod.fst rest from
          List.mem_map_of_mem Prod.fst h1)
      · simp only [lookupKey, if_neg hk]
        exact ih hnd.2 h1

theorem mem_eraseKey {κ β : Type} [DecidableEq κ] {k : κ} {p : κ × β}
    {l : List (κ × β)} : p ∈ eraseKey k l ↔ p ∈ l ∧ p.1 ≠ k := by
  simp [eraseKey, List.mem_filter]

theorem eraseKey_sublist {κ β : Type} [DecidableEq κ] (k : κ)
    (l : List (κ × β)) : (eraseKey k l).Sublist l :=
  List.filter_sublist l

theorem lookupKey_eraseKey_self {κ β : Type} [DecidableEq κ] (k : κ)
    (l : List (κ × β)) : lookupKey k (eraseKey k l) = none := by
  rw [lookupKey_eq_none]
  intro hmem
  rcases List.mem_map.mp hmem with ⟨p, hp, hfst⟩
  exact (mem_eraseKey.mp hp).2 hfst

theorem eraseKey_cons_self {κ β : Type} [DecidableEq κ] {k : κ}
    {p : κ × β} {rest : List (κ × β)} (hp : p.1 = k) :
    eraseKey k (p :: rest) = eraseKey k rest := by
  simp [eraseKey, List.filter_cons, hp]

theorem eraseKey_cons_ne {κ β : Type} [DecidableEq κ] {k : κ}
    {p : κ × β} {rest : List (κ × β)} (hp : ¬ p.1 = k) :
    eraseKey k (p :: rest) = p :: eraseKey k rest := by
  simp [eraseKey, List.filter_cons, hp]

theorem lookupKey_eraseKey_ne {κ β : Type} [DecidableEq κ] {k k' : κ}
    (l : List (κ × β)) (h : k' ≠ k) :
    lookupKey k' (eraseKey k l) = lookupKey k' l := by
  induction l with
  | nil => rfl
  | cons p rest ih =>
    by_cases hp : p.1 = k
    · have hpk : ¬ p.1 = k' := fun hc => h (hc.symm.trans hp)
      rw [eraseKey_cons_self hp, ih]
      simp only [lookupKey, if_neg hpk]
    · rw [eraseKey_cons_ne hp]
      simp only [lookupKey]
      by_cases hk : p.1 = k' <;> simp [hk, ih]

/-!  Lemmas about the record-update operation shared by both maps. -/

theorem updmap_map_fst {κ : Type} (cond : Client → Bool)
    (upd : Client → Client) (l : List (κ × Client)) :
    (l.map (fun p => if cond p.2 then (p.1, upd p.2) else p)).map Prod.fst =
      l.map Prod.fst := by
  induction l with
  | nil => rfl
  | cons p rest ih =>
    simp only [List.map_cons, ih]
    by_cases h : cond p.2 <;> simp [h]

theorem lookupKey_updmap {κ : Type} [DecidableEq κ] (cond : Client → Bool)
    (upd : Client → Client) (k : κ) (l : List (κ × Client)) :
    lookupKey k (l.map (fun p => if cond p.2 then (p.1, upd p.2) else p)) =
      (lookupKey k l).map (fun c => if cond c then upd c else c) := by
  induction l with
  | nil => rfl
  | cons p rest ih =>
    by_cases hc : cond p.2 <;> by_cases hk : p.1 = k <;>
      simp [lookupKey, hc, hk, ih]

theorem Inv_updClient {s : Server} (cond : Client → Bool)
    (upd : Client → Client) (haddr : ∀ c, (upd c).addr = c.addr)
    (hipx : ∀ c, (upd c).ipxAddr = c.ipxAddr) (h : Inv s) :
    Inv (updClient cond upd s) := by
  obtain ⟨h1, h2, h3, h4, h5, h6⟩ := h
  refine ⟨?_, ?_, ?_, ?_, ?_, ?_⟩
  · rw [show (updClient cond upd s).clients =
      s.clients.map (fun p => if cond p.2 then (p.1, upd p.2) else p)
      from rfl]
    rw [updmap_map_fst]
    exact h1
  · rw [show (updClient cond upd s).clientsByIPX =
      s.clientsByIPX.map (fun p => if cond p.2 then (p.1, upd p.2) else p)
      from rfl]
    rw [updmap_map_fst]
    exact h2
  · intro p' hp'
    rcases List.mem_map.mp hp' with ⟨p, hp, hfp⟩
    by_cases hc : cond p.2
    · rw [if_pos hc] at hfp
      rw [← hfp]
      exact (haddr p.2).trans (h3 p hp)
    · rw [if_neg hc] at hfp
      rw [← hfp]
      exact h3 p hp
  · intro q' hq'
    rcases List.mem_map.mp hq' with ⟨q, hq, hfq⟩
    by_cases hc : cond q.2
    · rw [if_pos hc] at hfq
      rw [← hfq]
      exact (hipx q.2).trans (h4 q hq)
    · rw [if_neg hc] at hfq
      rw [← hfq]
      exact h4 q hq
  · intro p' hp'
    rcases List.mem_map.mp hp' with ⟨p, hp, hfp⟩
    refine List.mem_map.mpr ⟨(p.2.ipxAddr, p.2), h5 p hp, ?_⟩
    by_cases hc : cond p.2
    · rw [if_pos hc] at hfp ⊢
      rw [← hfp]
      exact congrArg (fun a => (a, upd p.2)) (hipx p.2).symm
    · rw [if_neg hc] at hfp ⊢
      rw [← hfp]
  · intro q' hq'
    rcases List.mem_map.mp hq' with ⟨q, hq, hfq⟩
    refine List.mem_map.mpr ⟨(q.2.addr, q.2), h6 q hq, ?_⟩
    by_cases hc : cond q.2
    · rw [if_pos hc] at hfq ⊢
      rw [← hfq]
      exact congrArg (fun a => (a, upd q.2)) (haddr q.2).symm
    · rw [if_neg hc] at hfq ⊢
      rw [← hfq]

theorem Inv_touchSendTime {s : Server} (ep : String) (t : Nat)
    (h : Inv s) : Inv (touchSendTime ep t s) :=
  Inv_updClient _ _ (fun _ => rfl) (fun _ => rfl) h

theorem Inv_touchReceiveTime {s : Server} (ep : String) (t : Nat)
    (h : Inv s) : Inv (touchReceiveTime ep t s) :=
  Inv_updClient _ _ (fun _ => rfl) (fun _ => rfl) h

theorem Inv_sent_update {s : Server} {x : List Datagram} :
    Inv { s with sent := x } ↔ Inv s :=
  Iff.rfl

theorem Inv_tap_update {s : Server} {x : Option (List (List Nat))} :
    Inv { s with tap := x } ↔ Inv s :=
  Iff.rfl

theorem Inv_sendReply {s : Server} (now : Nat) (c : Client) (h : Inv s) :
    Inv (sendReply now c s) :=
  Inv_sent_update.mpr (Inv_touchSendTime _ _ h)

theorem Inv_sendPing {s : Server} (now : Nat) (c : Client) (h : Inv s) :
    Inv (sendPing now c s) :=
  Inv_sent_update.mpr (Inv_touchSendTime _ _ h)

/-!  The allocator's guarantees. -/

theorem newAddressFrom_ok {s : Server}
    {rnd : Nat → Nat × Nat × Nat × Nat × Nat} :
    ∀ {i fuel : Nat} {a : Addr}, newAddressFrom s rnd i fuel = some a →
      addrAvailable s a = true ∧ a.b0 = 2 := by
  intro i fuel
  induction fuel generalizing i with
  | zero =>
    intro a h
    simp [newAddressFrom] at h
  | succ n ih =>
    intro a h
    simp only [newAddressFrom] at h
    by_cases hav : addrAvailable s (candidateAddr rnd i) = true
    · rw [if_pos hav] at h
      cases h
      exact ⟨hav, rfl⟩
    · rw [if_neg hav] at h
      exact ih h

theorem newAddress_ok {s : Server}
    {rnd : Nat → Nat × Nat × Nat × Nat × Nat} {fuel : Nat} {a : Addr}
    (h : newAddress s rnd fuel = some a) :
    addrAvailable s a = true ∧ a.b0 = 2 :=
  newAddressFrom_ok h

theorem addrAvailable_spec {s : Server} {a : Addr}
    (h : addrAvailable s a = true) :
    a ≠ AddrNull ∧ a ≠ AddrBroadcast ∧ a ≠ addrPingReply ∧
      lookupKey a s.clientsByIPX = none := by
  simp only [addrAvailable, Bool.and_eq_true, decide_eq_true_eq,
    Option.isNone_iff_eq_none] at h
  exact ⟨h.1.1.1, h.1.1.2, h.1.2, h.2⟩

theorem Inv_newClient {rnd : Nat → Nat × Nat × Nat × Nat × Nat}
    {fuel now : Nat} {addr : String} {s s' : Server} (h : Inv s)
    (hn : newClient rnd fuel now addr s = some s') : Inv s' := by
  unfold newClient at hn
  cases hc : lookupKey addr s.clients with
  | some c =>
    rw [hc] at hn
    cases hn
    exact Inv_sendReply now c h
  | none =>
    rw [hc] at hn
    cases ha : newAddress s rnd fuel with
    | none =>
      rw [ha] at hn
      cases hn
    | some a =>
      rw [ha] at hn
      simp only [Option.some_inj] at hn
      rw [← hn]
      obtain ⟨hav, _⟩ := newAddress_ok ha
      obtain ⟨_, _, _, hnone⟩ := addrAvailable_spec hav
      have hep : addr ∉ s.clients.map Prod.fst :=
        (lookupKey_eq_none _ _).mp hc
      have hax : a ∉ s.clientsByIPX.map Prod.fst :=
        (lookupKey_eq_none _ _).mp hnone
      obtain ⟨h1, h2, h3, h4, h5, h6⟩ := h
      refine Inv_sendReply now _ ⟨?_, ?_, ?_, ?_, ?_, ?_⟩
      · rw [List.map_cons]
        exact List.nodup_cons.mpr ⟨hep, h1⟩
      · rw [List.map_cons]
        exact List.nodup_cons.mpr ⟨hax, h2⟩
      · intro p hp
        rcases List.mem_cons.mp hp with hp1 | hp1
        · rw [hp1]
        · exact h3 p hp1
      · intro q hq
        rcases List.mem_cons.mp hq with hq1 | hq1
        · rw [hq1]
        · exact h4 q hq1
      · intro p hp
        rcases List.mem_cons.mp hp with hp1 | hp1
        · rw [hp1]
          exact List.mem_cons_self _ _
        · exact List.mem_cons_of_mem _ (h5 p hp1)
      · intro q hq
        rcases List.mem_cons.mp hq with hq1 | hq1
        · rw [hq1]
          exact List.mem_cons_self _ _
        · exact List.mem_cons_of_mem _ (h6 q hq1)

theorem Inv_broadcastFold {oracle : String → Option Nat} {now : Nat}
    {header : Header} {packet : List Nat} :
    ∀ (l : List (String × Client)) (acc : Server × Option SrvError),
      Inv acc.1 →
      Inv ((l.foldl (broadcastStep oracle now header packet) acc)).1 := by
  intro l
  induction l with
  | nil => intro acc h; exact h
  | cons p rest ih =>
    intro acc h
    rw [List.foldl_cons]
    refine ih _ ?_
    unfold broadcastStep
    by_cases hskip : p.2.ipxAddr = header.src.addr
    · rw [if_pos hskip]
      exact h
    · rw [if_neg hskip]
      exact Inv_sent_update.mpr (Inv_touchSendTime _ _ h)

theorem Inv_forwardPacket {oracle : String → Option Nat} {now : Nat}
    {header : Header} {packet : List Nat} {s : Server} (h : Inv s) :
    Inv (forwardPacket oracle now header packet s).1 := by
  unfold forwardPacket
  by_cases hb : header.IsBroadcast = true
  · rw [if_pos hb]
    exact Inv_broadcastFold _ _ h
  · rw [if_neg hb]
    cases hl : lookupKey header.dest.addr s.clientsByIPX with
    | none => exact h
    | some c => exact Inv_sent_update.mpr (Inv_touchSendTime _ _ h)

theorem Inv_tapPublish {packet : List Nat} {s : Server} (h : Inv s) :
    Inv (tapPublish packet s) := by
  unfold tapPublish
  cases s.tap with
  | none => exact h
  | some ps => exact Inv_tap_update.mpr h

theorem Inv_processPacket {decode : List Nat → Option Header}
    {rnd : Nat → Nat × Nat × Nat × Nat × Nat} {fuel : Nat}
    {oracle : String → Option Nat} {now : Nat} {packet : List Nat}
    {addr : String} {s s' : Server} (h : Inv s)
    (hp : processPacket decode rnd fuel oracle now packet addr s = some s') :
    Inv s' := by
  cases hd : decode packet with
  | none =>
    simp only [processPacket, hd] at hp
    cases hp
    exact h
  | some header =>
    simp only [processPacket, hd] at hp
    by_cases hreg : header.IsRegistrationPacket = true
    · rw [if_pos hreg] at hp
      exact Inv_newClient h hp
    · rw [if_neg hreg] at hp
      cases hl : lookupKey addr s.clients with
      | none =>
        rw [hl] at hp
        cases hp
        exact h
      | some srcClient =>
        rw [hl] at hp
        simp only [] at hp
        by_cases hsrc : header.src.addr ≠ srcClient.ipxAddr
        · rw [if_pos hsrc] at hp
          cases hp
          exact h
        · rw [if_neg hsrc] at hp
          simp only [Option.some_inj] at hp
          rw [← hp]
          exact Inv_tapPublish
            (Inv_forwardPacket (Inv_touchReceiveTime _ _ h))

theorem Inv_write {decode : List Nat → Option Header}
    {oracle : String → Option Nat} {now : Nat} {packet : List Nat}
    {s : Server} (h : Inv s) :
    Inv (Write decode oracle now packet s).1 := by
  unfold Write
  cases hd : decode packet with
  | none => exact h
  | some header =>
    have hf := @Inv_forwardPacket oracle now header packet s h
    change Inv (match forwardPacket oracle now header packet s with
      | (s1, some e) => (s1, Except.error e)
      | (s1, none) => (s1, Except.ok packet.length)).1
    rcases hfp : forwardPacket oracle now header packet s with ⟨s1, e⟩
    rw [hfp] at hf
    cases e with
    | none => exact hf
    | some e => exact hf

theorem Inv_attachTap {s : Server} (h : Inv s) : Inv (attachTap s) := by
  unfold attachTap
  cases s.tap with
  | none => exact Inv_tap_update.mpr h
  | some t => exact h

theorem Inv_closeTap {s : Server} (h : Inv s) : Inv (closeTap s) :=
  Inv_tap_update.mpr h

/-!  Distinctness consequences of the invariant. -/

theorem Inv_addrUnique {s : Server} (h : Inv s) : AddrUnique s := by
  obtain ⟨h1, h2, h3, h4, h5, h6⟩ := h
  intro p hp q hq hipx
  have hpB := h5 p hp
  have hqB := h5 q hq
  rw [hipx] at hpB
  have heq := nodupKeys_inj h2 hpB hqB
  rw [← h3 p hp, ← h3 q hq, heq]

theorem Inv_pairwise {s : Server} (h : Inv s) :
    s.clients.Pairwise distinctRec := by
  have hu := Inv_addrUnique h
  obtain ⟨h1, h2, h3, h4, h5, h6⟩ := h
  have hp : s.clients.Pairwise (fun p q => p.1 ≠ q.1) :=
    List.pairwise_map.mp h1
  refine hp.imp_of_mem ?_
  intro p q hpmem hqmem hne
  constructor
  · rw [h3 p hpmem, h3 q hqmem]
    exact hne
  · intro hipx
    exact hne (hu p hpmem q hqmem hipx)

theorem Inv_erasePair {s : Server} {k1 : String} {k2 : Addr} {d : Client}
    (h : Inv s) (hd : lookupKey k1 s.clients = some d)
    (hda : d.addr = k1) (hdi : d.ipxAddr = k2) :
    Inv { s with clients := eraseKey k1 s.clients,
                 clientsByIPX := eraseKey k2 s.clientsByIPX } := by
  obtain ⟨hn1, hn2, h3, h4, h5, h6⟩ := h
  have hdm : (k1, d) ∈ s.clients := lookupKey_mem hd
  have hdB : (d.ipxAddr, d) ∈ s.clientsByIPX := h5 (k1, d) hdm
  refine ⟨?_, ?_, ?_, ?_, ?_, ?_⟩
  · exact hn1.sublist ((eraseKey_sublist k1 s.clients).map Prod.fst)
  · exact hn2.sublist ((eraseKey_sublist k2 s.clientsByIPX).map Prod.fst)
  · intro p hp
    exact h3 p (mem_eraseKey.mp hp).1
  · intro q hq
    exact h4 q (mem_eraseKey.mp hq).1
  · intro p hp
    obtain ⟨hpm, hpk⟩ := mem_eraseKey.mp hp
    refine mem_eraseKey.mpr ⟨h5 p hpm, ?_⟩
    intro hipx0
    have hipx : p.2.ipxAddr = k2 := hipx0
    have hpB := h5 p hpm
    rw [hipx, ← hdi] at hpB
    have heq : p.2 = d := nodupKeys_inj hn2 hpB hdB
    apply hpk
    rw [← h3 p hpm, heq]
    exact hda
  · intro q hq
    obtain ⟨hqm, hqk⟩ := mem_eraseKey.mp hq
    refine mem_eraseKey.mpr ⟨h6 q hqm, ?_⟩
    intro haddr0
    have haddr : q.2.addr = k1 := haddr0
    have hqC := h6 q hqm
    rw [haddr] at hqC
    have heq : q.2 = d := nodupKeys_inj hn1 hqC hdm
    refine hqk ?_
    rw [← h4 q hqm, heq, hdi]

/-!  Lemmas about one `checkClientTimeouts` iteration. -/

theorem checkClientStep_fst (now : Nat) (acc : Server × Nat)
    (p : String × Client) :
    (checkClientStep now acc p).1 =
      evictPhase now p (pingPhase now acc.1 p) := by
  unfold checkClientStep pingPhase evictPhase
  by_cases hk : p.2.lastSendTime + acc.1.config.keepaliveTime < now <;>
    simp [hk]

theorem pingPhase_config (now : Nat) (st : Server) (p : String × Client) :
    (pingPhase now st p).config = st.config := by
  unfold pingPhase
  split <;> rfl

theorem evictPhase_config (now : Nat) (p : String × Client) (st : Server) :
    (evictPhase now p st).config = st.config := by
  unfold evictPhase
  split <;> rfl

theorem checkClientStep_config (now : Nat) (acc : Server × Nat)
    (p : String × Client) :
    (checkClientStep now acc p).1.config = acc.1.config := by
  rw [checkClientStep_fst, evictPhase_config, pingPhase_config]

theorem checkFold_config (now : Nat) :
    ∀ (l : List (String × Client)) (acc : Server × Nat),
      ((l.foldl (checkClientStep now) acc).1).config = acc.1.config := by
  intro l
  induction l with
  | nil => intro acc; rfl
  | cons p rest ih =>
    intro acc
    rw [List.foldl_cons, ih, checkClientStep_config]

theorem evictPhase_sent (now : Nat) (p : String × Client) (st : Server) :
    (evictPhase now p st).sent = st.sent := by
  unfold evictPhase
  split <;> rfl

theorem pingPhase_sent_mono {now : Nat} {st : Server} {p : String × Client}
    {x : Datagram} (hx : x ∈ st.sent) : x ∈ (pingPhase now st p).sent := by
  unfold pingPhase
  split
  · exact List.mem_append_left _ hx
  · exact hx

theorem checkClientStep_sent_mono {now : Nat} {acc : Server × Nat}
    {p : String × Client} {x : Datagram} (hx : x ∈ acc.1.sent) :
    x ∈ (checkClientStep now acc p).1.sent := by
  rw [checkClientStep_fst, evictPhase_sent]
  exact pingPhase_sent_mono hx

theorem checkFold_sent_mono {now : Nat} :
    ∀ {l : List (String × Client)} {acc : Server × Nat} {x : Datagram},
      x ∈ acc.1.sent → x ∈ ((l.foldl (checkClientStep now) acc).1).sent := by
  intro l
  induction l with
  | nil => intro acc x hx; exact hx
  | cons p rest ih =>
    intro acc x hx
    rw [List.foldl_cons]
    exact ih (checkClientStep_sent_mono hx)

theorem pingPhase_ping_sent {now : Nat} {st : Server} {p : String × Client}
    (hk : p.2.lastSendTime + st.config.keepaliveTime < now) :
    Datagram.hdr pingHeader p.2.addr ∈ (pingPhase now st p).sent := by
  unfold pingPhase
  rw [if_pos hk]
  show Datagram.hdr pingHeader p.2.addr ∈
    (touchSendTime p.2.addr now st).sent ++ [Datagram.hdr pingHeader p.2.addr]
  exact List.mem_append_right _ (List.mem_singleton_self _)

theorem checkClientStep_ping_sent {now next : Nat} {st : Server}
    {p : String × Client}
    (hk : p.2.lastSendTime + st.config.keepaliveTime < now) :
    Datagram.hdr pingHeader p.2.addr ∈
      (checkClientStep now (st, next) p).1.sent := by
  rw [checkClientStep_fst, evictPhase_sent]
  exact pingPhase_ping_sent hk

/-!  Lookup behaviour of the two phases. -/

theorem lookupKey_touchSend (ep : String) (t : Nat) (s : Server)
    (k : String) :
    lookupKey k (touchSendTime ep t s).clients =
      (lookupKey k s.clients).map
        (fun c => if c.addr = ep then { c with lastSendTime := t } else c) := by
  have h := lookupKey_updmap (fun c => decide (c.addr = ep))
    (fun c => { c with lastSendTime := t }) k s.clients
  rw [show (touchSendTime ep t s).clients =
    s.clients.map (fun p => if decide (p.2.addr = ep) = true
      then (p.1, { p.2 with lastSendTime := t }) else p) from rfl]
  rw [h]
  simp only [decide_eq_true_eq]

theorem lookupKeyIPX_touchSend (ep : String) (t : Nat) (s : Server)
    (k : Addr) :
    lookupKey k (touchSendTime ep t s).clientsByIPX =
      (lookupKey k s.clientsByIPX).map
        (fun c => if c.addr = ep then { c with lastSendTime := t } else c) := by
  have h := lookupKey_updmap (fun c => decide (c.addr = ep))
    (fun c => { c with lastSendTime := t }) k s.clientsByIPX
  rw [show (touchSendTime ep t s).clientsByIPX =
    s.clientsByIPX.map (fun p => if decide (p.2.addr = ep) = true
      then (p.1, { p.2 with lastSendTime := t }) else p) from rfl]
  rw [h]
  simp only [decide_eq_true_eq]

theorem pingPhase_lookup_other {now : Nat} {st : Server}
    {p : String × Client} {k : String} {c : Client}
    (hc : lookupKey k st.clients = some c) (hne : c.addr ≠ p.2.addr) :
    lookupKey k (pingPhase now st p).clients = some c := by
  unfold pingPhase
  split
  · show lookupKey k (touchSendTime p.2.addr now st).clients = some c
    rw [lookupKey_touchSend, hc]
    simp [hne]
  · exact hc

theorem pingPhase_lookupIPX_other {now : Nat} {st : Server}
    {p : String × Client} {k : Addr} {c : Client}
    (hc : lookupKey k st.clientsByIPX = some c) (hne : c.addr ≠ p.2.addr) :
    lookupKey k (pingPhase now st p).clientsByIPX = some c := by
  unfold pingPhase
  split
  · show lookupKey k (touchSendTime p.2.addr now st).clientsByIPX = some c
    rw [lookupKeyIPX_touchSend, hc]
    simp [hne]
  · exact hc

theorem pingPhase_lookup_self {now : Nat} {st : Server}
    {p : String × Client} {k : String} {c : Client}
    (hc : lookupKey k st.clients = some c) (heq : c.addr = p.2.addr) :
    lookupKey k (pingPhase now st p).clients =
      some (if p.2.lastSendTime + st.config.keepaliveTime < now
        then { c with lastSendTime := now } else c) := by
  unfold pingPhase
  by_cases hk : p.2.lastSendTime + st.config.keepaliveTime < now
  · rw [if_pos hk, if_pos hk]
    show lookupKey k (touchSendTime p.2.addr now st).clients = _
    rw [lookupKey_touchSend, hc]
    simp [heq]
  · rw [if_neg hk, if_neg hk]
    exact hc

theorem lookupKey_eraseKey_none {κ β : Type} [DecidableEq κ] {k k' : κ}
    {l : List (κ × β)} (h : lookupKey k' l = none) :
    lookupKey k' (eraseKey k l) = none := by
  by_cases he : k' = k
  · rw [he]
    exact lookupKey_eraseKey_self _ _
  · rw [lookupKey_eraseKey_ne _ he]
    exact h

theorem evictPhase_lookup_ne {now : Nat} {p : String × Client}
    {st : Server} {k : String} (hne : k ≠ p.2.addr) :
    lookupKey k (evictPhase now p st).clients =
      lookupKey k st.clients := by
  unfold evictPhase
  split
  · exact lookupKey_eraseKey_ne _ hne
  · rfl

theorem evictPhase_lookupIPX_ne {now : Nat} {p : String × Client}
    {st : Server} {k : Addr} (hne : k ≠ p.2.ipxAddr) :
    lookupKey k (evictPhase now p st).clientsByIPX =
      lookupKey k st.clientsByIPX := by
  unfold evictPhase
  split
  · exact lookupKey_eraseKey_ne _ hne
  · rfl

theorem pingPhase_Inv {now : Nat} {st : Server} {p : String × Client}
    (h : Inv st) : Inv (pingPhase now st p) := by
  unfold pingPhase
  split
  · exact Inv_sendPing _ _ h
  · exact h

/-!  The induction along the `checkClientTimeouts` walk. -/

theorem checkMotive_step {now next : Nat} {p : String × Client}
    {rest : List (String × Client)} {st : Server}
    (h : CheckMotive (p :: rest) st) :
    CheckMotive rest (checkClientStep now (st, next) p).1 := by
  obtain ⟨hInv, hpw, hlk⟩ := h
  obtain ⟨hdist, hpw2⟩ := List.pairwise_cons.mp hpw
  obtain ⟨hpaddr, hplk, hplkB⟩ := hlk p (List.mem_cons_self p rest)
  rw [checkClientStep_fst]
  show CheckMotive rest (evictPhase now p (pingPhase now st p))
  have hInv1 : Inv (pingPhase now st p) := pingPhase_Inv hInv
  have hd := @pingPhase_lookup_self now st p p.1 p.2 hplk rfl
  have hda : (if p.2.lastSendTime + st.config.keepaliveTime < now
      then { p.2 with lastSendTime := now } else p.2).addr = p.2.addr := by
    split <;> rfl
  have hdi : (if p.2.lastSendTime + st.config.keepaliveTime < now
      then { p.2 with lastSendTime := now } else p.2).ipxAddr =
        p.2.ipxAddr := by
    split <;> rfl
  have hrest : ∀ q ∈ rest, q.2.addr = q.1 ∧
      lookupKey q.1 (pingPhase now st p).clients = some q.2 ∧
      lookupKey q.2.ipxAddr (pingPhase now st p).clientsByIPX = some q.2 := by
    intro q hq
    obtain ⟨hqaddr, hqlk, hqlkB⟩ := hlk q (List.mem_cons_of_mem _ hq)
    have hne : q.2.addr ≠ p.2.addr := fun hcc => (hdist q hq).1 hcc.symm
    exact ⟨hqaddr, pingPhase_lookup_other hqlk hne,
      pingPhase_lookupIPX_other hqlkB hne⟩
  unfold evictPhase
  split
  · refine ⟨?_, hpw2, ?_⟩
    · have hd2 : lookupKey p.2.addr (pingPhase now st p).clients =
          some (if p.2.lastSendTime + st.config.keepaliveTime < now
            then { p.2 with lastSendTime := now } else p.2) := by
        rw [hpaddr]
        exact hd
      exact Inv_erasePair hInv1 hd2 hda hdi
    · intro q hq
      obtain ⟨hqaddr, hqlk, hqlkB⟩ := hrest q hq
      have hne1 : q.1 ≠ p.2.addr := by
        rw [← hqaddr]
        exact fun hcc => (hdist q hq).1 hcc.symm
      have hne2 : q.2.ipxAddr ≠ p.2.ipxAddr :=
        fun hcc => (hdist q hq).2 hcc.symm
      refine ⟨hqaddr, ?_, ?_⟩
      · show lookupKey q.1
          (eraseKey p.2.addr (pingPhase now st p).clients) = some q.2
        rw [lookupKey_eraseKey_ne _ hne1]
        exact hqlk
      · show lookupKey q.2.ipxAddr
          (eraseKey p.2.ipxAddr (pingPhase now st p).clientsByIPX) = some q.2
        rw [lookupKey_eraseKey_ne _ hne2]
        exact hqlkB
  · exact ⟨hInv1, hpw2, hrest⟩

theorem checkMotive_fold (now : Nat) :
    ∀ (l rest : List (String × Client)) (st : Server) (next : Nat),
      CheckMotive (l ++ rest) st →
      CheckMotive rest ((l.foldl (checkClientStep now) (st, next)).1) := by
  intro l
  induction l with
  | nil =>
    intro rest st next h
    exact h
  | cons p l2 ih =>
    intro rest st next h
    rw [List.foldl_cons]
    have h2 : CheckMotive (l2 ++ rest) (checkClientStep now (st, next) p).1 :=
      checkMotive_step h
    exact ih rest (checkClientStep now (st, next) p).1
      (checkClientStep now (st, next) p).2 h2

theorem Inv_checkMotive {s : Server} (h : Inv s) :
    CheckMotive s.clients s := by
  refine ⟨h, Inv_pairwise h, ?_⟩
  obtain ⟨h1, h2, h3, h4, h5, h6⟩ := h
  intro q hq
  refine ⟨h3 q hq, ?_, ?_⟩
  · exact mem_lookupKey h1 (show (q.1, q.2) ∈ s.clients from hq)
  · exact mem_lookupKey h2 (h5 q hq)

theorem Inv_check {now : Nat} {s : Server} (h : Inv s) :
    Inv (checkClientTimeouts now s).1 := by
  have h0 := checkMotive_fold now s.clients [] s (now + 10)
    (by rw [List.append_nil]; exact Inv_checkMotive h)
  exact h0.1

/-!  Per-key effects of a full scheduler pass. -/

theorem checkClientStep_lookup_none {now : Nat} {acc : Server × Nat}
    {q : String × Client} {k : String}
    (h : lookupKey k acc.1.clients = none) :
    lookupKey k (checkClientStep now acc q).1.clients = none := by
  rw [checkClientStep_fst]
  have h1 : lookupKey k (pingPhase now acc.1 q).clients = none := by
    unfold pingPhase
    split
    · show lookupKey k (touchSendTime q.2.addr now acc.1).clients = none
      rw [lookupKey_touchSend, h]
      rfl
    · exact h
  unfold evictPhase
  split
  · show lookupKey k
      (eraseKey q.2.addr (pingPhase now acc.1 q).clients) = none
    exact lookupKey_eraseKey_none h1
  · exact h1

theorem checkClientStep_lookupIPX_none {now : Nat} {acc : Server × Nat}
    {q : String × Client} {k : Addr}
    (h : lookupKey k acc.1.clientsByIPX = none) :
    lookupKey k (checkClientStep now acc q).1.clientsByIPX = none := by
  rw [checkClientStep_fst]
  have h1 : lookupKey k (pingPhase now acc.1 q).clientsByIPX = none := by
    unfold pingPhase
    split
    · show lookupKey k (touchSendTime q.2.addr now acc.1).clientsByIPX = none
      rw [lookupKeyIPX_touchSend, h]
      rfl
    · exact h
  unfold evictPhase
  split
  · show lookupKey k
      (eraseKey q.2.ipxAddr (pingPhase now acc.1 q).clientsByIPX) = none
    exact lookupKey_eraseKey_none h1
  · exact h1

theorem checkFold_lookup_none {now : Nat} :
    ∀ {l : List (String × Client)} {acc : Server × Nat} {k : String},
      lookupKey k acc.1.clients = none →
      lookupKey k ((l.foldl (checkClientStep now) acc).1).clients = none := by
  intro l
  induction l with
  | nil =>
    intro acc k h
    exact h
  | cons q rest ih =>
    intro acc k h
    rw [List.foldl_cons]
    exact ih (checkClientStep_lookup_none h)

theorem checkFold_lookupIPX_none {now : Nat} :
    ∀ {l : List (String × Client)} {acc : Server × Nat} {k : Addr},
      lookupKey k acc.1.clientsByIPX = none →
      lookupKey k ((l.foldl (checkClientStep now) acc).1).clientsByIPX =
        none := by
  intro l
  induction l with
  | nil =>
    intro acc k h
    exact h
  | cons q rest ih =>
    intro acc k h
    rw [List.foldl_cons]
    exact ih (checkClientStep_lookupIPX_none h)

theorem checkClientStep_evicts {now next : Nat} {st : Server}
    {p : String × Client}
    (hto : p.2.lastReceiveTime + st.config.clientTimeout < now) :
    lookupKey p.2.addr (checkClientStep now (st, next) p).1.clients = none ∧
    lookupKey p.2.ipxAddr
      (checkClientStep now (st, next) p).1.clientsByIPX = none := by
  rw [checkClientStep_fst]
  show lookupKey p.2.addr
      (evictPhase now p (pingPhase now st p)).clients = none ∧
    lookupKey p.2.ipxAddr
      (evictPhase now p (pingPhase now st p)).clientsByIPX = none
  unfold evictPhase
  rw [if_pos (show p.2.lastReceiveTime +
      (pingPhase now st p).config.clientTimeout < now by
    rw [pingPhase_config]
    exact hto)]
  exact ⟨lookupKey_eraseKey_self _ _, lookupKey_eraseKey_self _ _⟩

theorem check_evicts {now : Nat} {s : Server} {p : String × Client}
    (hp : p ∈ s.clients)
    (hto : p.2.lastReceiveTime + s.config.clientTimeout < now) :
    lookupKey p.2.addr (checkClientTimeouts now s).1.clients = none ∧
    lookupKey p.2.ipxAddr (checkClientTimeouts now s).1.clientsByIPX =
      none := by
  obtain ⟨l1, l2, hsplit⟩ := List.append_of_mem hp
  show lookupKey p.2.addr
      ((s.clients.foldl (checkClientStep now) (s, now + 10)).1).clients =
        none ∧
    lookupKey p.2.ipxAddr
      ((s.clients.foldl (checkClientStep now)
        (s, now + 10)).1).clientsByIPX = none
  rw [hsplit, List.foldl_append, List.foldl_cons]
  have hcfg := checkFold_config now l1 (s, now + 10)
  have hto1 : p.2.lastReceiveTime +
      ((l1.foldl (checkClientStep now) (s, now + 10)).1).config.clientTimeout
        < now := by
    rw [hcfg]
    exact hto
  have hstep := @checkClientStep_evicts now
    (l1.foldl (checkClientStep now) (s, now + 10)).2
    (l1.foldl (checkClientStep now) (s, now + 10)).1 p hto1
  exact ⟨checkFold_lookup_none hstep.1, checkFold_lookupIPX_none hstep.2⟩

theorem checkClientStep_lookup_keep {now : Nat} {acc : Server × Nat}
    {q : String × Client} {k : String} {d : Client}
    (hd : lookupKey k acc.1.clients = some d) (hdk : d.addr = k)
    (hne : q.2.addr ≠ k) :
    lookupKey k (checkClientStep now acc q).1.clients = some d := by
  rw [checkClientStep_fst]
  have h1 : lookupKey k (pingPhase now acc.1 q).clients = some d :=
    pingPhase_lookup_other hd (by rw [hdk]; exact Ne.symm hne)
  show lookupKey k (evictPhase now q (pingPhase now acc.1 q)).clients =
    some d
  rw [evictPhase_lookup_ne (Ne.symm hne)]
  exact h1

theorem checkFold_lookup_keep {now : Nat} :
    ∀ {l : List (String × Client)} {acc : Server × Nat} {k : String}
      {d : Client},
      lookupKey k acc.1.clients = some d → d.addr = k →
      (∀ q ∈ l, q.2.addr ≠ k) →
      lookupKey k ((l.foldl (checkClientStep now) acc).1).clients =
        some d := by
  intro l
  induction l with
  | nil =>
    intro acc k d hd _ _
    exact hd
  | cons q rest ih =>
    intro acc k d hd hdk hdist
    rw [List.foldl_cons]
    exact ih (checkClientStep_lookup_keep hd hdk
      (hdist q (List.mem_cons_self q rest))) hdk
      (fun r hr => hdist r (List.mem_cons_of_mem _ hr))

theorem check_keepalive {now : Nat} {s : Server} {p : String × Client}
    (hInv : Inv s) (hp : p ∈ s.clients)
    (hk : p.2.lastSendTime + s.config.keepaliveTime < now) :
    Datagram.hdr pingHeader p.2.addr ∈ (checkClientTimeouts now s).1.sent ∧
    (¬ (p.2.lastReceiveTime + s.config.clientTimeout < now) →
      lookupKey p.1 (checkClientTimeouts now s).1.clients =
        some { p.2 with lastSendTime := now }) := by
  obtain ⟨l1, l2, hsplit⟩ := List.append_of_mem hp
  have h0 := Inv_checkMotive hInv
  rw [hsplit] at h0
  have hm := checkMotive_fold now l1 (p :: l2) s (now + 10) h0
  obtain ⟨hInv1, hpw1, hlk1⟩ := hm
  obtain ⟨hdist, hpw2⟩ := List.pairwise_cons.mp hpw1
  obtain ⟨hpaddr, hplk, hplkB⟩ := hlk1 p (List.mem_cons_self _ _)
  have hcfg := checkFold_config now l1 (s, now + 10)
  have hk1 : p.2.lastSendTime +
      ((l1.foldl (checkClientStep now) (s, now + 10)).1).config.keepaliveTime
        < now := by
    rw [hcfg]
    exact hk
  have hfold : (checkClientTimeouts now s).1 =
      ((l2.foldl (checkClientStep now)
        (checkClientStep now
          (l1.foldl (checkClientStep now) (s, now + 10)) p)).1) := by
    show ((s.clients.foldl (checkClientStep now) (s, now + 10)).1) = _
    rw [hsplit, List.foldl_append, List.foldl_cons]
  constructor
  · rw [hfold]
    refine checkFold_sent_mono ?_
    exact checkClientStep_ping_sent hk1
  · intro hsurv
    rw [hfold]
    have hstep : lookupKey p.1
        (checkClientStep now
          (l1.foldl (checkClientStep now) (s, now + 10)) p).1.clients =
          some { p.2 with lastSendTime := now } := by
      rw [checkClientStep_fst]
      have h1 : lookupKey p.1
          (pingPhase now
            (l1.foldl (checkClientStep now) (s, now + 10)).1 p).clients =
            some { p.2 with lastSendTime := now } := by
        have h2 := @pingPhase_lookup_self now
          (l1.foldl (checkClientStep now) (s, now + 10)).1 p p.1 p.2 hplk rfl
        rw [if_pos hk1] at h2
        exact h2
      show lookupKey p.1 (evictPhase now p
        (pingPhase now
          (l1.foldl (checkClientStep now) (s, now + 10)).1 p)).clients = _
      unfold evictPhase
      rw [if_neg (show ¬ (p.2.lastReceiveTime +
          (pingPhase now
            (l1.foldl (checkClientStep now) (s, now + 10)).1
              p).config.clientTimeout < now) by
        rw [pingPhase_config, hcfg]
        exact hsurv)]
      exact h1
    refine checkFold_lookup_keep hstep hpaddr ?_
    intro q hq
    rw [← hpaddr]
    exact Ne.symm (hdist q hq).1

/-!  Characterization of the broadcast fan-out. -/

theorem broadcastFold_spec {oracle : String → Option Nat} {now : Nat}
    {header : Header} {packet : List Nat} :
    ∀ (l : List (String × Client)) (s0 : Server) (e0 : Option SrvError),
      ((l.foldl (broadcastStep oracle now header packet) (s0, e0)).1.sent =
        s0.sent ++
          (l.filter (fun p =>
            decide (p.2.ipxAddr ≠ header.src.addr))).map
            (fun p => Datagram.raw packet p.2.addr)) ∧
      ((l.foldl (broadcastStep oracle now header packet) (s0, e0)).2 =
        match (l.filter (fun p =>
            decide (p.2.ipxAddr ≠ header.src.addr))).getLast? with
          | none => e0
          | some p => (oracle p.2.addr).map SrvError.sendErr) := by
  intro l
  induction l with
  | nil =>
    intro s0 e0
    constructor
    · simp
    · rfl
  | cons p rest ih =>
    intro s0 e0
    rw [List.foldl_cons]
    by_cases hskip : p.2.ipxAddr = header.src.addr
    · have hstep : broadcastStep oracle now header packet (s0, e0) p =
          (s0, e0) := by
        unfold broadcastStep
        rw [if_pos hskip]
      have hf : (p :: rest).filter
          (fun p => decide (p.2.ipxAddr ≠ header.src.addr)) =
          rest.filter (fun p => decide (p.2.ipxAddr ≠ header.src.addr)) := by
        rw [List.filter_cons]
        simp [hskip]
      rw [hstep, hf]
      exact ih s0 e0
    · have hstep : broadcastStep oracle now header packet (s0, e0) p =
          ({ touchSendTime p.2.addr now s0 with
              sent := (touchSendTime p.2.addr now s0).sent ++
                [Datagram.raw packet p.2.addr] },
            (oracle p.2.addr).map SrvError.sendErr) := by
        unfold broadcastStep
        rw [if_neg hskip]
      have hf : (p :: rest).filter
          (fun p => decide (p.2.ipxAddr ≠ header.src.addr)) =
          p :: rest.filter
            (fun p => decide (p.2.ipxAddr ≠ header.src.addr)) := by
        rw [List.filter_cons]
        simp [hskip]
      rw [hstep, hf]
      obtain ⟨ihs, ihe⟩ := ih
        { touchSendTime p.2.addr now s0 with
            sent := (touchSendTime p.2.addr now s0).sent ++
              [Datagram.raw packet p.2.addr] }
        ((oracle p.2.addr).map SrvError.sendErr)
      constructor
      · rw [ihs]
        show (s0.sent ++ [Datagram.raw packet p.2.addr]) ++ _ = _
        rw [List.append_assoc]
        rfl
      · rw [ihe]
        cases hfr : rest.filter
            (fun p => decide (p.2.ipxAddr ≠ header.src.addr)) with
        | nil => simp
        | cons q qs =>
          rw [List.getLast?_cons_cons]
          cases hql : (q :: qs).getLast? with
          | none => simp at hql
          | some r => rfl

theorem broadcastStep_tap (oracle : String → Option Nat) (now : Nat)
    (header : Header) (packet : List Nat) (acc : Server × Option SrvError)
    (p : String × Client) :
    (broadcastStep oracle now header packet acc p).1.tap = acc.1.tap := by
  unfold broadcastStep
  split <;> rfl

theorem broadcastFold_tap {oracle : String → Option Nat} {now : Nat}
    {header : Header} {packet : List Nat} :
    ∀ (l : List (String × Client)) (acc : Server × Option SrvError),
      ((l.foldl (broadcastStep oracle now header packet) acc).1).tap =
        acc.1.tap := by
  intro l
  induction l with
  | nil => intro acc; rfl
  | cons p rest ih =>
    intro acc
    rw [List.foldl_cons, ih, broadcastStep_tap]

theorem forwardPacket_tap {oracle : String → Option Nat} {now : Nat}
    {header : Header} {packet : List Nat} {s : Server} :
    (forwardPacket oracle now header packet s).1.tap = s.tap := by
  unfold forwardPacket
  split
  · exact broadcastFold_tap s.clients (s, none)
  · cases hl : lookupKey header.dest.addr s.clientsByIPX with
    | none => rfl
    | some c => rfl

/-!  Lookup behaviour of the registration reply. -/

theorem sendReply_lookup_self {now : Nat} {c : Client} {s : Server}
    {k : String} (hc : lookupKey k s.clients = some c) :
    lookupKey k (sendReply now c s).clients =
      some { c with lastSendTime := now } := by
  show lookupKey k (touchSendTime c.addr now s).clients = _
  rw [lookupKey_touchSend, hc]
  simp

theorem sendReply_lookup_other {now : Nat} {c d : Client} {s : Server}
    {k : String} (hd : lookupKey k s.clients = some d)
    (hne : d.addr ≠ c.addr) :
    lookupKey k (sendReply now c s).clients = some d := by
  show lookupKey k (touchSendTime c.addr now s).clients = _
  rw [lookupKey_touchSend, hd]
  simp [hne]

theorem sendReply_lookup_none {now : Nat} {c : Client} {s : Server}
    {k : String} (h : lookupKey k s.clients = none) :
    lookupKey k (sendReply now c s).clients = none := by
  show lookupKey k (touchSendTime c.addr now s).clients = _
  rw [lookupKey_touchSend, h]
  rfl

theorem sendReply_lookupIPX_self {now : Nat} {c : Client} {s : Server}
    {k : Addr} (hc : lookupKey k s.clientsByIPX = some c) :
    lookupKey k (sendReply now c s).clientsByIPX =
      some { c with lastSendTime := now } := by
  show lookupKey k (touchSendTime c.addr now s).clientsByIPX = _
  rw [lookupKeyIPX_touchSend, hc]
  simp

theorem sendReply_lookupIPX_other {now : Nat} {c d : Client} {s : Server}
    {k : Addr} (hd : lookupKey k s.clientsByIPX = some d)
    (hne : d.addr ≠ c.addr) :
    lookupKey k (sendReply now c s).clientsByIPX = some d := by
  show lookupKey k (touchSendTime c.addr now s).clientsByIPX = _
  rw [lookupKeyIPX_touchSend, hd]
  simp [hne]

theorem sendReply_lookupIPX_none {now : Nat} {c : Client} {s : Server}
    {k : Addr} (h : lookupKey k s.clientsByIPX = none) :
    lookupKey k (sendReply now c s).clientsByIPX = none := by
  show lookupKey k (touchSendTime c.addr now s).clientsByIPX = _
  rw [lookupKeyIPX_touchSend, h]
  rfl

theorem sendReply_sent (now : Nat) (c : Client) (s : Server) :
    (sendReply now c s).sent =
      s.sent ++ [Datagram.hdr (replyHeader c) c.addr] :=
  rfl

/-!  Reductions of the dispatch path. -/

theorem processPacket_reg {decode : List Nat → Option Header}
    {rnd : Nat → Nat × Nat × Nat × Nat × Nat} {fuel : Nat}
    {oracle : String → Option Nat} {now : Nat} {packet : List Nat}
    {addr : String} {s : Server} {header : Header}
    (hdec : decode packet = some header)
    (hreg : header.IsRegistrationPacket = true) :
    processPacket decode rnd fuel oracle now packet addr s =
      newClient rnd fuel now addr s := by
  simp only [processPacket, hdec]
  rw [if_pos hreg]

theorem newClient_existing {rnd : Nat → Nat × Nat × Nat × Nat × Nat}
    {fuel now : Nat} {addr : String} {s : Server} {c : Client}
    (hc : lookupKey addr s.clients = some c) :
    newClient rnd fuel now addr s = some (sendReply now c s) := by
  unfold newClient
  rw [hc]

/-!  The claims. -/

/-- C1, counterexample: with clients A, B, C registered and a broadcast
from A, an oracle that fails the send to B (code 7) and succeeds on C makes
`forwardBroadcastPacket` return no error, although the last error
encountered among the per-destination attempts is the code-7 failure:
the function returns the result of the final attempt, not the last error
encountered. -/
theorem claim_C1_cex :
    (forwardBroadcastPacket oracleBC 5 bcastHeaderA [9, 9] sampleServer).2 =
      none ∧
    lastErrorEncountered
      (attemptResults oracleBC bcastHeaderA sampleServer) =
      some (SrvError.sendErr 7) := by
  exact ⟨rfl, rfl⟩

/-- C1, amended: a broadcast packet is handed to the socket once for every
registered client except those holding the header's source address, in
iteration order and regardless of earlier send failures; the error surfaced
to the caller is the result of the final send attempt (`none` when the final
attempt succeeds, even if an earlier attempt failed; `none` when there is no
attempt). -/
theorem claim_C1 (oracle : String → Option Nat) (now : Nat)
    (header : Header) (packet : List Nat) (s : Server) :
    ((forwardBroadcastPacket oracle now header packet s).1.sent =
      s.sent ++ (broadcastTargets header s).map
        (fun p => Datagram.raw packet p.2.addr)) ∧
    (∀ p ∈ broadcastTargets header s,
      Datagram.raw packet p.2.addr ∈
        (forwardBroadcastPacket oracle now header packet s).1.sent) ∧
    ((forwardBroadcastPacket oracle now header packet s).2 =
      match (broadcastTargets header s).getLast? with
      | none => none
      | some p => (oracle p.2.addr).map SrvError.sendErr) := by
  have h := @broadcastFold_spec oracle now header packet s.clients s none
  refine ⟨h.1, ?_, h.2⟩
  intro p hp
  show Datagram.raw packet p.2.addr ∈
    ((s.clients.foldl (broadcastStep oracle now header packet)
      (s, none)).1).sent
  rw [h.1]
  exact List.mem_append_right _ (List.mem_map_of_mem _ hp)

/-- C2: in every reachable server state the registry invariant holds: the
endpoint-keyed and address-keyed maps are consistent as a pair and no two
distinct registered endpoints hold the same allocated protocol address;
reachability covers construction, packet dispatch (registration and
forwarding), external injection, scheduler passes and tap operations. -/
theorem claim_C2 (s : Server) (h : Reachable s) : Inv s ∧ AddrUnique s := by
  induction h with
  | init cfg =>
    have hi : Inv (Server.new cfg) := by
      refine ⟨?_, ?_, ?_, ?_, ?_, ?_⟩ <;> simp [Server.new]
    exact ⟨hi, Inv_addrUnique hi⟩
  | packet s s' decode rnd fuel oracle now pkt addr hr hstep ih =>
    have hi := Inv_processPacket ih.1 hstep
    exact ⟨hi, Inv_addrUnique hi⟩
  | write s decode oracle now pkt hr ih =>
    have hi := @Inv_write decode oracle now pkt s ih.1
    exact ⟨hi, Inv_addrUnique hi⟩
  | check s now hr ih =>
    have hi := @Inv_check now s ih.1
    exact ⟨hi, Inv_addrUnique hi⟩
  | tapAttach s hr ih =>
    have hi := Inv_attachTap ih.1
    exact ⟨hi, Inv_addrUnique hi⟩
  | tapClose s hr ih =>
    have hi := Inv_closeTap ih.1
    exact ⟨hi, Inv_addrUnique hi⟩

/-- Witness for C2 at the concrete initial state. -/
theorem claim_C2_witness :
    Inv (Server.new cfg0) ∧ AddrUnique (Server.new cfg0) :=
  claim_C2 (Server.new cfg0) (Reachable.init cfg0)

/-- C3: a unicast packet whose destination address has no registered client
makes `forwardPacket` return `UnknownClientError` with the state (socket
log included) unchanged, and `Write` surfaces that error; when forwarding
succeeds, `Write` returns the packet's byte count. -/
theorem claim_C3 {decode : List Nat → Option Header}
    {oracle : String → Option Nat} {now : Nat} {packet : List Nat}
    {s : Server} {header : Header}
    (hdec : decode packet = some header) :
    (header.IsBroadcast = false →
      lookupKey header.dest.addr s.clientsByIPX = none →
      forwardPacket oracle now header packet s =
        (s, some SrvError.unknownClient) ∧
      Write decode oracle now packet s =
        (s, Except.error SrvError.unknownClient)) ∧
    (∀ s1, forwardPacket oracle now header packet s = (s1, none) →
      Write decode oracle now packet s = (s1, Except.ok packet.length)) := by
  constructor
  · intro hb hl
    have hfp : forwardPacket oracle now header packet s =
        (s, some SrvError.unknownClient) := by
      unfold forwardPacket
      rw [if_neg (by simp [hb]), hl]
    refine ⟨hfp, ?_⟩
    simp only [Write, hdec]
    rw [hfp]
  · intro s1 hfp
    simp only [Write, hdec]
    rw [hfp]

/-- Witness for C3 with a concrete unknown destination. -/
theorem claim_C3_witness :
    ((dataHeaderToD.IsBroadcast = false →
      lookupKey dataHeaderToD.dest.addr sampleServer.clientsByIPX = none →
      forwardPacket oracleOk 5 dataHeaderToD [3] sampleServer =
        (sampleServer, some SrvError.unknownClient) ∧
      Write decodeW oracleOk 5 [3] sampleServer =
        (sampleServer, Except.error SrvError.unknownClient)) ∧
    (∀ s1, forwardPacket oracleOk 5 dataHeaderToD [3] sampleServer =
        (s1, none) →
      Write decodeW oracleOk 5 [3] sampleServer =
        (s1, Except.ok ([3] : List Nat).length))) :=
  claim_C3 (by decide)

/-- C4: a registration packet from an already-registered endpoint leaves the
client's allocated address and the rest of the registry unchanged (only the
client's own last-send timestamp moves) and still sends a reply whose
destination address is the existing allocated address. -/
theorem claim_C4 {rnd : Nat → Nat × Nat × Nat × Nat × Nat} {fuel now : Nat}
    {addr : String} {s : Server} {c : Client} (hInv : Inv s)
    (hc : lookupKey addr s.clients = some c) :
    newClient rnd fuel now addr s = some (sendReply now c s) ∧
    lookupKey addr (sendReply now c s).clients =
      some { c with lastSendTime := now } ∧
    lookupKey c.ipxAddr (sendReply now c s).clientsByIPX =
      some { c with lastSendTime := now } ∧
    (∀ k, k ≠ addr → lookupKey k (sendReply now c s).clients =
      lookupKey k s.clients) ∧
    (∀ a, a ≠ c.ipxAddr → lookupKey a (sendReply now c s).clientsByIPX =
      lookupKey a s.clientsByIPX) ∧
    (sendReply now c s).sent =
      s.sent ++ [Datagram.hdr (replyHeader c) c.addr] ∧
    (replyHeader c).dest.addr = c.ipxAddr := by
  obtain ⟨h1, h2, h3, h4, h5, h6⟩ := hInv
  have hmem : (addr, c) ∈ s.clients := lookupKey_mem hc
  have hcaddr : c.addr = addr := h3 (addr, c) hmem
  refine ⟨newClient_existing hc, sendReply_lookup_self hc,
    sendReply_lookupIPX_self (mem_lookupKey h2 (h5 (addr, c) hmem)),
    ?_, ?_, rfl, rfl⟩
  · intro k hk
    cases hd : lookupKey k s.clients with
    | none => exact sendReply_lookup_none hd
    | some d =>
      have hdm := lookupKey_mem hd
      have hdaddr : d.addr = k := h3 (k, d) hdm
      exact sendReply_lookup_other hd (by rw [hdaddr, hcaddr]; exact hk)
  · intro a ha
    cases hd : lookupKey a s.clientsByIPX with
    | none => exact sendReply_lookupIPX_none hd
    | some e =>
      have hem := lookupKey_mem hd
      have heipx : e.ipxAddr = a := h4 (a, e) hem
      refine sendReply_lookupIPX_other hd ?_
      intro hee
      have heC : (e.addr, e) ∈ s.clients := h6 (a, e) hem
      rw [hee, hcaddr] at heC
      have heq : e = c := nodupKeys_inj h1 heC hmem
      exact ha (by rw [← heipx, heq])

/-- Witness for C4: re-registration of client A. -/
theorem claim_C4_witness :
    newClient rndW 1 5 "A" sampleServer =
      some (sendReply 5 clientA sampleServer) ∧
    lookupKey "A" (sendReply 5 clientA sampleServer).clients =
      some { clientA with lastSendTime := 5 } ∧
    lookupKey clientA.ipxAddr
      (sendReply 5 clientA sampleServer).clientsByIPX =
      some { clientA with lastSendTime := 5 } ∧
    (∀ k, k ≠ "A" → lookupKey k (sendReply 5 clientA sampleServer).clients =
      lookupKey k sampleServer.clients) ∧
    (∀ a, a ≠ clientA.ipxAddr →
      lookupKey a (sendReply 5 clientA sampleServer).clientsByIPX =
      lookupKey a sampleServer.clientsByIPX) ∧
    (sendReply 5 clientA sampleServer).sent =
      sampleServer.sent ++
        [Datagram.hdr (replyHeader clientA) clientA.addr] ∧
    (replyHeader clientA).dest.addr = clientA.ipxAddr :=
  claim_C4 (by decide) (by decide)

/-- C5: whenever the allocator returns an address, that address is none of
the null, broadcast and ping-source sentinels, is not currently held by any
registered client, and carries the locally-administered unicast marker 0x02
in its first byte. -/
theorem claim_C5 {s : Server} {rnd : Nat → Nat × Nat × Nat × Nat × Nat}
    {fuel : Nat} {a : Addr} (h : newAddress s rnd fuel = some a) :
    a ≠ AddrNull ∧ a ≠ AddrBroadcast ∧ a ≠ addrPingReply ∧
    lookupKey a s.clientsByIPX = none ∧ a.b0 = 2 := by
  obtain ⟨hav, hb0⟩ := newAddress_ok h
  obtain ⟨h1, h2, h3, h4⟩ := addrAvailable_spec hav
  exact ⟨h1, h2, h3, h4, hb0⟩

/-- Witness for C5 on the sample registry. -/
theorem claim_C5_witness :
    (⟨2, 9, 9, 9, 9, 9⟩ : Addr) ≠ AddrNull ∧
    (⟨2, 9, 9, 9, 9, 9⟩ : Addr) ≠ AddrBroadcast ∧
    (⟨2, 9, 9, 9, 9, 9⟩ : Addr) ≠ addrPingReply ∧
    lookupKey (⟨2, 9, 9, 9, 9, 9⟩ : Addr) sampleServer.clientsByIPX =
      none ∧
    (⟨2, 9, 9, 9, 9, 9⟩ : Addr).b0 = 2 :=
  @claim_C5 sampleServer rndW 1 ⟨2, 9, 9, 9, 9, 9⟩ (by decide)

/-- C6: a non-registration packet whose sender endpoint is unknown, or whose
header source address differs from the sender's allocated address, is
silently discarded: the dispatch returns the state unchanged, sending
nothing and publishing nothing. -/
theorem claim_C6 {decode : List Nat → Option Header}
    {rnd : Nat → Nat × Nat × Nat × Nat × Nat} {fuel : Nat}
    {oracle : String → Option Nat} {now : Nat} {packet : List Nat}
    {addr : String} {s : Server} {header : Header}
    (hdec : decode packet = some header)
    (hreg : header.IsRegistrationPacket = false)
    (hbad : lookupKey addr s.clients = none ∨
      ∃ c, lookupKey addr s.clients = some c ∧
        header.src.addr ≠ c.ipxAddr) :
    processPacket decode rnd fuel oracle now packet addr s = some s := by
  simp only [processPacket, hdec]
  rw [if_neg (by simp [hreg])]
  rcases hbad with hl | ⟨c, hl, hne⟩
  · rw [hl]
  · rw [hl]
    simp only []
    rw [if_pos hne]

/-- Witness for C6: data packet from an unregistered endpoint. -/
theorem claim_C6_witness :
    processPacket decodeW rndW 1 oracleOk 5 [2] "Z" sampleServer =
      some sampleServer :=
  @claim_C6 decodeW rndW 1 oracleOk 5 [2] "Z" sampleServer dataHeaderBtoA
    (by decide) (by decide) (Or.inl (by decide))

/-- C7: a client whose idle deadline has passed at a scheduler pass is
removed from both registry maps by that pass, and its protocol address
passes the allocator's availability test again (given it is not one of the
reserved sentinels, which allocated addresses never are). -/
theorem claim_C7 {now : Nat} {s : Server} {p : String × Client}
    (hp : p ∈ s.clients)
    (hto : p.2.lastReceiveTime + s.config.clientTimeout < now) :
    lookupKey p.2.addr (checkClientTimeouts now s).1.clients = none ∧
    lookupKey p.2.ipxAddr (checkClientTimeouts now s).1.clientsByIPX =
      none ∧
    (p.2.ipxAddr ≠ AddrNull → p.2.ipxAddr ≠ AddrBroadcast →
      p.2.ipxAddr ≠ addrPingReply →
      addrAvailable (checkClientTimeouts now s).1 p.2.ipxAddr = true) := by
  obtain ⟨h1, h2⟩ := check_evicts hp hto
  refine ⟨h1, h2, ?_⟩
  intro hn hb hpr
  simp [addrAvailable, h2, hn, hb, hpr]

/-- Witness for C7: client A evicted at time 20. -/
theorem claim_C7_witness :
    lookupKey clientA.addr
      (checkClientTimeouts 20 sampleServer).1.clients = none ∧
    lookupKey clientA.ipxAddr
      (checkClientTimeouts 20 sampleServer).1.clientsByIPX = none ∧
    (clientA.ipxAddr ≠ AddrNull → clientA.ipxAddr ≠ AddrBroadcast →
      clientA.ipxAddr ≠ addrPingReply →
      addrAvailable (checkClientTimeouts 20 sampleServer).1
        clientA.ipxAddr = true) :=
  @claim_C7 20 sampleServer ("A", clientA) (by decide) (by decide)

/-- C8: a client whose keepalive deadline has passed at a scheduler pass is
sent a ping whose destination is the broadcast sentinel on socket 2 and
whose source is the ping-source sentinel on socket 0, and (when the client
is not simultaneously evicted) its stored last-send timestamp becomes the
current time. -/
theorem claim_C8 {now : Nat} {s : Server} {p : String × Client}
    (hInv : Inv s) (hp : p ∈ s.clients)
    (hdue : p.2.lastSendTime + s.config.keepaliveTime < now) :
    Datagram.hdr pingHeader p.2.addr ∈
      (checkClientTimeouts now s).1.sent ∧
    pingHeader.dest.addr = AddrBroadcast ∧ pingHeader.dest.socket = 2 ∧
    pingHeader.src.addr = addrPingReply ∧ pingHeader.src.socket = 0 ∧
    (¬ (p.2.lastReceiveTime + s.config.clientTimeout < now) →
      lookupKey p.1 (checkClientTimeouts now s).1.clients =
        some { p.2 with lastSendTime := now }) := by
  obtain ⟨hping, hrec⟩ := check_keepalive hInv hp hdue
  exact ⟨hping, rfl, rfl, rfl, rfl, hrec⟩

/-- Witness for C8: client B pinged at time 4. -/
theorem claim_C8_witness :
    Datagram.hdr pingHeader clientB.addr ∈
      (checkClientTimeouts 4 sampleServer).1.sent ∧
    pingHeader.dest.addr = AddrBroadcast ∧ pingHeader.dest.socket = 2 ∧
    pingHeader.src.addr = addrPingReply ∧ pingHeader.src.socket = 0 ∧
    (¬ (clientB.lastReceiveTime + sampleServer.config.clientTimeout < 4) →
      lookupKey "B" (checkClientTimeouts 4 sampleServer).1.clients =
        some { clientB with lastSendTime := 4 }) :=
  @claim_C8 4 sampleServer ("B", clientB) (by decide) (by decide)
    (by decide)

/-- C9: a validated inbound data packet is published to the attached tap
unconditionally: the dispatch result is exactly the tap publication applied
after the forwarding step, and the tap's packet list gains the raw bytes no
matter what the forwarding step returned. -/
theorem claim_C9 {decode : List Nat → Option Header}
    {rnd : Nat → Nat × Nat × Nat × Nat × Nat} {fuel : Nat}
    {oracle : String → Option Nat} {now : Nat} {packet : List Nat}
    {addr : String} {s : Server} {header : Header} {c : Client}
    {ps : List (List Nat)}
    (hdec : decode packet = some header)
    (hreg : header.IsRegistrationPacket = false)
    (hc : lookupKey addr s.clients = some c)
    (hsrc : header.src.addr = c.ipxAddr)
    (htap : s.tap = some ps) :
    processPacket decode rnd fuel oracle now packet addr s =
      some (tapPublish packet
        (forwardPacket oracle now header packet
          (touchReceiveTime addr now s)).1) ∧
    (tapPublish packet
      (forwardPacket oracle now header packet
        (touchReceiveTime addr now s)).1).tap = some (ps ++ [packet]) := by
  constructor
  · simp only [processPacket, hdec]
    rw [if_neg (by simp [hreg]), hc]
    simp only []
    rw [if_neg (show ¬ header.src.addr ≠ c.ipxAddr from
      fun hne => hne hsrc)]
  · have htap2 : (forwardPacket oracle now header packet
        (touchReceiveTime addr now s)).1.tap = some ps := by
      rw [forwardPacket_tap]
      exact htap
    unfold tapPublish
    rw [htap2]

/-- Witness for C9: client B's data packet reaches the tap. -/
theorem claim_C9_witness :
    processPacket decodeW rndW 1 oracleOk 5 [2] "B" sampleServer =
      some (tapPublish [2]
        (forwardPacket oracleOk 5 dataHeaderBtoA [2]
          (touchReceiveTime "B" 5 sampleServer)).1) ∧
    (tapPublish [2]
      (forwardPacket oracleOk 5 dataHeaderBtoA [2]
        (touchReceiveTime "B" 5 sampleServer)).1).tap =
      some ([] ++ [[2]]) :=
  @claim_C9 decodeW rndW 1 oracleOk 5 [2] "B" sampleServer dataHeaderBtoA
    clientB [] (by decide) (by decide) (by decide) (by decide) (by decide)

/-- C10: a registration replay from a known endpoint moves only that
client's last-send timestamp (the last-receive timestamp is untouched), so
a client sending only registration packets is still evicted once its idle
deadline passes. -/
theorem claim_C10 {decode : List Nat → Option Header}
    {rnd : Nat → Nat × Nat × Nat × Nat × Nat} {fuel : Nat}
    {oracle : String → Option Nat} {t now : Nat} {pkt : List Nat}
    {ep : String} {s : Server} {c : Client} {header : Header}
    (hInv : Inv s) (hc : lookupKey ep s.clients = some c)
    (hdec : decode pkt = some header)
    (hreg : header.IsRegistrationPacket = true)
    (hnow : c.lastReceiveTime + s.config.clientTimeout < now) :
    processPacket decode rnd fuel oracle t pkt ep s =
      some (sendReply t c s) ∧
    lookupKey ep (sendReply t c s).clients =
      some { c with lastSendTime := t } ∧
    lookupKey ep (checkClientTimeouts now (sendReply t c s)).1.clients =
      none ∧
    lookupKey c.ipxAddr
      (checkClientTimeouts now (sendReply t c s)).1.clientsByIPX =
      none := by
  have hcaddr : c.addr = ep := hInv.2.2.1 (ep, c) (lookupKey_mem hc)
  have hpp : processPacket decode rnd fuel oracle t pkt ep s =
      some (sendReply t c s) := by
    rw [processPacket_reg hdec hreg, newClient_existing hc]
  have hmem1 : (ep, { c with lastSendTime := t }) ∈
      (sendReply t c s).clients :=
    lookupKey_mem (sendReply_lookup_self hc)
  have hev := @check_evicts now (sendReply t c s)
    (ep, { c with lastSendTime := t }) hmem1 hnow
  refine ⟨hpp, sendReply_lookup_self hc, ?_, hev.2⟩
  rw [← hcaddr]
  exact hev.1

/-- Witness for C10: client A replays a registration at time 1 and is
still evicted at time 20. -/
theorem claim_C10_witness :
    processPacket decodeW rndW 1 oracleOk 1 [1] "A" sampleServer =
      some (sendReply 1 clientA sampleServer) ∧
    lookupKey "A" (sendReply 1 clientA sampleServer).clients =
      some { clientA with lastSendTime := 1 } ∧
    lookupKey "A"
      (checkClientTimeouts 20 (sendReply 1 clientA sampleServer)).1.clients =
      none ∧
    lookupKey clientA.ipxAddr
      (checkClientTimeouts 20
        (sendReply 1 clientA sampleServer)).1.clientsByIPX = none :=
  @claim_C10 decodeW rndW 1 oracleOk 1 20 [1] "A" sampleServer clientA
    regHeader (by decide) (by decide) (by decide) (by decide) (by decide)

end IpxSrv
